import Mathlib

/-
Verification development for the ACWR dashboard pipeline (src/app.py).

The pipeline is embedded shallowly:
* a pandas DataFrame row becomes a `Row` (player, session date, position,
  and the two numeric metric columns);
* float64 columns holding finite numbers or NaN become `Option ℚ`
  (`none` models NaN/missing; comparisons with `none` are `false`, matching
  IEEE NaN comparison semantics used by pandas filters);
* the ACWR column, which can additionally hold ±infinity (from division of
  a nonzero acute average by a zero chronic average), becomes `FVal`;
* `sort_values` is modelled as a stable sort (`List.insertionSort`);
* `groupby` iterates groups in ascending key order, preserving row order
  inside each group, exactly as pandas does with the default sort=True.
-/

/-- Float value for the derived ACWR columns: a finite rational, NaN, or
a signed infinity (the float results `x / 0.0` can produce). -/
inductive FVal where
  | num (q : ℚ)
  | nan
  | inf
  | ninf
deriving DecidableEq, Repr

/-- Missing-aware comparison `x <= y` on float columns: any comparison
involving NaN (here `none`) is `false`, as in pandas/numpy. -/
def oLe : Option ℚ → Option ℚ → Bool
  | some a, some b => decide (a ≤ b)
  | _, _ => false

/-- Missing-aware strict comparison `x < y`; NaN makes it `false`. -/
def oLt : Option ℚ → Option ℚ → Bool
  | some a, some b => decide (a < b)
  | _, _ => false

/-- NaN-propagating addition on float columns. -/
def oadd : Option ℚ → Option ℚ → Option ℚ
  | some a, some b => some (a + b)
  | _, _ => none

/-- NaN-propagating subtraction on float columns. -/
def osub : Option ℚ → Option ℚ → Option ℚ
  | some a, some b => some (a - b)
  | _, _ => none

/-- NaN-propagating multiplication on float columns. -/
def omul : Option ℚ → Option ℚ → Option ℚ
  | some a, some b => some (a * b)
  | _, _ => none

/-- Float division as numpy performs it on the Acute/Chronic columns:
NaN propagates; division of a nonzero value by zero gives a signed
infinity; `0 / 0` gives NaN. -/
def fdiv : Option ℚ → Option ℚ → FVal
  | none, _ => FVal.nan
  | some _, none => FVal.nan
  | some a, some b =>
      if b = 0 then
        if a = 0 then FVal.nan else if 0 < a then FVal.inf else FVal.ninf
      else FVal.num (a / b)

/-- Comparison `x < y` on ACWR float values, with IEEE NaN semantics. -/
def fLt : FVal → FVal → Bool
  | FVal.nan, _ => false
  | _, FVal.nan => false
  | FVal.num a, FVal.num b => decide (a < b)
  | FVal.num _, FVal.inf => true
  | FVal.num _, FVal.ninf => false
  | FVal.inf, _ => false
  | FVal.ninf, FVal.ninf => false
  | FVal.ninf, _ => true

/-- One row of the joined workload table: `Player Name`, `Session Date`
(`none` for NaT on position-only rows), `Position`, and the two metric
columns `High Speed Running` and `DSL` (`none` for NaN). -/
structure Row where
  player : String
  date : Option Nat
  position : Option String
  hsr : Option ℚ
  dsl : Option ℚ
deriving DecidableEq, Repr

instance : Inhabited Row :=
  ⟨{ player := "", date := none, position := none, hsr := none, dsl := none }⟩

/-- Column access `row[metric]` for the two metric columns of the table. -/
def Row.get (r : Row) (metric : String) : Option ℚ :=
  if metric = "High Speed Running" then r.hsr
  else if metric = "DSL" then r.dsl
  else none

/-- One row of `MasterWorkload.csv`: player, parsed session date, and the
two numeric metric cells (possibly empty). -/
structure LoadRecord where
  player : String
  date : Nat
  hsr : Option ℚ
  dsl : Option ℚ
deriving DecidableEq, Repr

/-- One row of `positions.csv`: player and (nullable) position label. -/
structure PositionRecord where
  player : String
  position : Option String
deriving DecidableEq, Repr

/-- Metrics to include (src/app.py line 21). -/
def metrics : List String := ["High Speed Running", "DSL"]

/-- Right join of workload records onto position records on `Player Name`
(src/app.py line 15, `how="right"`): every position row is kept; a
position row with no matching workload rows yields a single row with NaT
date and NaN metric values; workload rows without a position row are
dropped. Rows are emitted in right-frame order, each position row's
matches in left-frame order, as pandas does for a right merge. -/
def mergeRight (w : List LoadRecord) (p : List PositionRecord) : List Row :=
  p.flatMap (fun pr =>
    let ms := w.filter (fun lr => lr.player == pr.player)
    if ms.isEmpty then
      [{ player := pr.player, date := none, position := pr.position, hsr := none, dsl := none }]
    else
      ms.map (fun lr =>
        { player := lr.player, date := some lr.date, position := pr.position,
          hsr := lr.hsr, dsl := lr.dsl }))

/-- Order on nullable dates used by `sort_values`: NaT sorts last. -/
def dLe : Option Nat → Option Nat → Bool
  | some a, some b => decide (a ≤ b)
  | some _, none => true
  | none, some _ => false
  | none, none => true

/-- Lexicographic sort key of `sort_values(by=["Player Name", "Session Date"])`. -/
def rowLe (r s : Row) : Bool :=
  if r.player = s.player then dLe r.date s.date else decide (r.player < s.player)

/-- Propositional form of `rowLe`, for use with the sorting library. -/
def rowLeP (r s : Row) : Prop := rowLe r s = true

instance : DecidableRel rowLeP := fun r s => by unfold rowLeP; infer_instance

/-- Sort of the merged table by (player ascending, date ascending)
(src/app.py line 18); pandas' multi-column sort is a stable lexsort,
modelled by a stable insertion sort. -/
def sortRows (df : List Row) : List Row := List.insertionSort rowLeP df

/-- Joined and sorted table (src/app.py lines 15 and 18). -/
def merged_df (w : List LoadRecord) (p : List PositionRecord) : List Row :=
  sortRows (mergeRight w p)

/-- Sorted list of the distinct player names of a table: the keys that
`df.groupby("Player Name")` iterates, in ascending order. -/
def playersOf (df : List Row) : List String :=
  (List.insertionSort (fun a b => a ≤ b) (df.map Row.player)).dedup

/-- Fractional position `p * (n - 1)` at which numpy's linear
interpolation reads a sorted sample of size `n`. -/
def qpos (xs : List ℚ) (p : ℚ) : ℚ := p * ((xs.length : ℚ) - 1)

/-- Index of the order statistic just below the fractional position. -/
def qidx (xs : List ℚ) (p : ℚ) : Nat := Int.toNat ⌊qpos xs p⌋

/-- Linear interpolation quantile of an already sorted nonempty list, as
numpy computes it: `xs[i] + frac * (xs[i+1] - xs[i])` with
`i = floor(p * (n-1))` and `frac = p * (n-1) - i`. -/
def interp (xs : List ℚ) (p : ℚ) : ℚ :=
  xs.getD (qidx xs p) 0
    + (qpos xs p - (qidx xs p : ℚ))
      * (xs.getD (qidx xs p + 1) (xs.getD (qidx xs p) 0) - xs.getD (qidx xs p) 0)

/-- `Series.quantile(p)`: NaN values are skipped; an all-NaN (or empty)
series yields NaN; otherwise linear interpolation on the sorted values. -/
def quantile (vs : List (Option ℚ)) (p : ℚ) : Option ℚ :=
  let xs := List.insertionSort (fun a b => a ≤ b) (vs.filterMap id)
  if xs.isEmpty then none else some (interp xs p)

/-- Per-group upper outlier bound `Q3 + multiplier * IQR` (src/app.py
lines 29-32), with NaN propagation when the group has no numeric value. -/
def upperOf (group : List Row) (metric : String) (multiplier : ℚ) : Option ℚ :=
  oadd (quantile (group.map (fun r => r.get metric)) (3/4))
    (omul (some multiplier)
      (osub (quantile (group.map (fun r => r.get metric)) (3/4))
        (quantile (group.map (fun r => r.get metric)) (1/4))))

/-- Sorted sample of the non-NaN values of one metric column of a group:
the order statistics that the quantile computation interpolates. -/
def sortedVals (g : List Row) (metric : String) : List ℚ :=
  List.insertionSort (fun a b => a ≤ b) ((g.map (fun r => r.get metric)).filterMap id)

/-- Outlier bounder (src/app.py lines 26-36): per player group, compute
Q1, Q3, IQR and `upper = Q3 + multiplier * IQR`, and keep the rows whose
metric value passes `value <= upper` (a NaN value, or a NaN bound, fails
the comparison and the row is dropped, as in pandas). Groups are emitted
in ascending player order, as `groupby` iterates and `concat` stacks them. -/
def remove_extreme_highs (df : List Row) (metric : String) (multiplier : ℚ) : List Row :=
  (playersOf df).flatMap (fun player =>
    let group := df.filter (fun r => r.player == player)
    let q1 := quantile (group.map (fun r => r.get metric)) (1/4)
    let q3 := quantile (group.map (fun r => r.get metric)) (3/4)
    let iqr := osub q3 q1
    let upper := oadd q3 (omul (some multiplier) iqr)
    group.filter (fun r => oLe (r.get metric) upper))

/-- Bounding loop (src/app.py lines 38-39): one bounder pass per metric,
each pass consuming the previous pass's output. -/
def merged_bounded (w : List LoadRecord) (p : List PositionRecord) : List Row :=
  metrics.foldl (fun d m => remove_extreme_highs d m (5/2)) (merged_df w p)

/-- Rolling mean of window `w` with `min_periods=1` at position `i` of a
column (src/app.py lines 45-54): mean of the non-NaN values among
positions `max(0, i-w+1) .. i`; NaN when no non-NaN value is in window. -/
def rollingMean (w : Nat) (vs : List (Option ℚ)) (i : Nat) : Option ℚ :=
  let xs := ((vs.take (i + 1)).drop (i + 1 - w)).filterMap id
  if xs.isEmpty then none else some (xs.sum / (xs.length : ℚ))

/-- Mean of a list of rationals (helper for stating window properties). -/
def meanQ (l : List ℚ) : ℚ := l.sum / (l.length : ℚ)

/-- Trailing window `[max(0, i-w+1) .. i]` of a list (helper for stating
window properties). -/
def sliceW (l : List ℚ) (w i : Nat) : List ℚ := (l.take (i + 1)).drop (i + 1 - w)

/-- Row of the enriched table: the joined row plus the six derived
columns `Acute_*`, `Chronic_*`, `ACWR_*` (src/app.py lines 44-57). -/
structure WRow where
  base : Row
  acuteHSR : Option ℚ
  chronicHSR : Option ℚ
  acwrHSR : FVal
  acuteDSL : Option ℚ
  chronicDSL : Option ℚ
  acwrDSL : FVal
deriving DecidableEq, Repr

instance : Inhabited WRow :=
  ⟨{ base := default, acuteHSR := none, chronicHSR := none, acwrHSR := FVal.nan,
     acuteDSL := none, chronicDSL := none, acwrDSL := FVal.nan }⟩

/-- Windowed columns for one player group (src/app.py lines 44-57): the
rolling 7-row acute and 28-row chronic means of each metric down the
group, and their elementwise quotient `ACWR = Acute / Chronic`. -/
def windowGroup (g : List Row) : List WRow :=
  let hs := g.map (fun r => r.get "High Speed Running")
  let ds := g.map (fun r => r.get "DSL")
  g.enum.map (fun pr =>
    { base := pr.2
      acuteHSR := rollingMean 7 hs pr.1
      chronicHSR := rollingMean 28 hs pr.1
      acwrHSR := fdiv (rollingMean 7 hs pr.1) (rollingMean 28 hs pr.1)
      acuteDSL := rollingMean 7 ds pr.1
      chronicDSL := rollingMean 28 ds pr.1
      acwrDSL := fdiv (rollingMean 7 ds pr.1) (rollingMean 28 ds pr.1) })

/-- Enrichment stage: the `groupby(...).rolling(...)` assignments of
src/app.py lines 44-57, which compute each player's windows independently
and align the results back onto the player's rows in order. -/
def addWindowed (df : List Row) : List WRow :=
  (playersOf df).flatMap (fun player => windowGroup (df.filter (fun r => r.player == player)))

/-- Windowed pipeline table (src/app.py after line 57). -/
def merged_windowed (w : List LoadRecord) (p : List PositionRecord) : List WRow :=
  addWindowed (merged_bounded w p)

/-- Order on enriched rows used by `sort_values("Session Date")`. -/
def wDateLe (r s : WRow) : Prop := dLe r.base.date s.base.date = true

instance : DecidableRel wDateLe := fun r s => by unfold wDateLe; infer_instance

/-- Date sort of src/app.py line 61, modelled as a stable sort. -/
def sortByDate (l : List WRow) : List WRow := List.insertionSort wDateLe l

/-- `groupby("Player Name").tail(1)`: keep exactly the rows not followed
by a later row of the same player, in table order. -/
def tailOne : List WRow → List WRow
  | [] => []
  | r :: rest =>
      if rest.any (fun s => s.base.player == r.base.player) then tailOne rest
      else r :: tailOne rest

/-- Snapshot selector (src/app.py lines 60-64): sort by session date and
take each player's last row. -/
def latest_df (l : List WRow) : List WRow := tailOne (sortByDate l)

/-- Final pipeline output: the latest enriched row per player. -/
def latest_table (w : List LoadRecord) (p : List PositionRecord) : List WRow :=
  latest_df (merged_windowed w p)

/-- Columns of the enriched table, against which pandas validates the
`subset` argument of `dropna` (a name outside this list raises KeyError). -/
def tableCols : List String :=
  ["Player Name", "Session Date", "Position", "High Speed Running", "DSL",
   "Acute_High Speed Running", "Chronic_High Speed Running", "ACWR_High Speed Running",
   "Acute_DSL", "Chronic_DSL", "ACWR_DSL"]

/-- Value of the `Acute_{metric}` column of an enriched row. -/
def acuteOf (r : WRow) (metric : String) : Option ℚ :=
  if metric = "High Speed Running" then r.acuteHSR
  else if metric = "DSL" then r.acuteDSL
  else none

/-- Value of the `Chronic_{metric}` column of an enriched row. -/
def chronicOf (r : WRow) (metric : String) : Option ℚ :=
  if metric = "High Speed Running" then r.chronicHSR
  else if metric = "DSL" then r.chronicDSL
  else none

/-- Value of the `ACWR_{metric}` column of an enriched row. -/
def acwrOf (r : WRow) (metric : String) : FVal :=
  if metric = "High Speed Running" then r.acwrHSR
  else if metric = "DSL" then r.acwrDSL
  else FVal.nan

/-- Bar colour rule of src/app.py lines 117-119: blue when `acwr < 0.8`,
red when `acwr > 1.5`, grey otherwise (NaN compares false both times). -/
def barColor (x : FVal) : String :=
  if fLt x (FVal.num (4/5)) then "blue"
  else if fLt (FVal.num (3/2)) x then "red"
  else "grey"

/-- Chart callback data logic (src/app.py lines 103-119): optionally
filter by exact position match (a falsy selection means no filter), then
`dropna(subset=[acute_col, chronic_col], how="all")` — which raises
KeyError when a derived column name is absent from the table, i.e. when
the selected metric is not one of the configured metrics — then colour
each remaining row by its ACWR value. -/
def update_chart (df0 : List WRow) (selected_position : Option String)
    (selected_metric : String) : Except String (List String) :=
  let df1 := match selected_position with
    | none => df0
    | some pos => if pos = "" then df0 else df0.filter (fun r => r.base.position == some pos)
  let acute_col := "Acute_" ++ selected_metric
  let chronic_col := "Chronic_" ++ selected_metric
  if tableCols.contains acute_col && tableCols.contains chronic_col then
    let df2 := df1.filter (fun r =>
      !((acuteOf r selected_metric).isNone && (chronicOf r selected_metric).isNone))
    Except.ok (df2.map (fun r => barColor (acwrOf r selected_metric)))
  else
    Except.error "KeyError"

/- ### Concrete example data -/

/-- Example workload table: one session for athlete `A`. -/
def wEx1 : List LoadRecord := [{ player := "A", date := 1, hsr := some 10, dsl := some 20 }]

/-- Example position registry: athletes `A` and `B`, where `B` has no
workload rows. -/
def pEx1 : List PositionRecord :=
  [{ player := "A", position := some "FW" }, { player := "B", position := some "GK" }]

/-- Example position registry holding athlete `A` only. -/
def pEx5 : List PositionRecord := [{ player := "A", position := some "FW" }]

/-- The joined row produced for athlete `A` from `wEx1`. -/
def rEx1 : Row :=
  { player := "A", date := some 1, position := some "FW", hsr := some 10, dsl := some 20 }

/-- Example joined table for athlete `A`: one row with a numeric value and
one row with a missing value for `High Speed Running`. -/
def dfC2 : List Row :=
  [{ player := "A", date := some 1, position := some "FW", hsr := some 10, dsl := some 1 },
   { player := "A", date := some 2, position := some "FW", hsr := none, dsl := some 2 }]

/-- One training row of an example athlete `A`. -/
def rowA (d : Nat) (v : ℚ) : Row :=
  { player := "A", date := some d, position := some "FW", hsr := some v, dsl := some 0 }

/-- Eight-session group whose first `High Speed Running` value `-35`
cancels the seven later values `5`, so that the 28-row chronic mean at the
last row is `0` while the 7-row acute mean is `5`. -/
def g8 : List Row :=
  [rowA 1 (-35), rowA 2 5, rowA 3 5, rowA 4 5, rowA 5 5, rowA 6 5, rowA 7 5, rowA 8 5]

/-- Two enriched rows of athlete `A` on different dates, for exercising
the snapshot selector. -/
def lEx6 : List WRow :=
  [{ base := rowA 1 3, acuteHSR := some 3, chronicHSR := some 3, acwrHSR := FVal.num 1,
     acuteDSL := some 0, chronicDSL := some 0, acwrDSL := FVal.nan },
   { base := rowA 2 4, acuteHSR := some 4, chronicHSR := some 4, acwrHSR := FVal.num 1,
     acuteDSL := some 0, chronicDSL := some 0, acwrDSL := FVal.nan }]

/- ### Basic facts about the missing-aware operations -/

lemma oLe_none_left (u : Option ℚ) : oLe none u = false := by cases u <;> rfl

lemma oLe_none_right (v : Option ℚ) : oLe v none = false := by cases v <;> rfl

lemma oLe_eq_true_iff {v u : Option ℚ} :
    oLe v u = true ↔ ∃ a b, v = some a ∧ u = some b ∧ a ≤ b := by
  cases v <;> cases u <;> simp [oLe]

/- ### Grouping by player: `playersOf` and per-player rows -/

lemma mem_playersOf {df : List Row} {a : String} :
    a ∈ playersOf df ↔ ∃ r ∈ df, r.player = a := by
  unfold playersOf
  rw [List.mem_dedup, List.mem_insertionSort, List.mem_map]

lemma nodup_playersOf (df : List Row) : (playersOf df).Nodup :=
  List.nodup_dedup _

lemma sorted_playersOf (df : List Row) : (playersOf df).Pairwise (· < ·) := by
  have hs : (List.insertionSort (fun a b => a ≤ b) (df.map Row.player)).Pairwise
      (fun a b : String => a ≤ b) :=
    List.sorted_insertionSort _ _
  have hle : (playersOf df).Pairwise (fun a b : String => a ≤ b) :=
    hs.sublist (List.dedup_sublist _)
  have hnd : (playersOf df).Pairwise (fun a b : String => a ≠ b) := nodup_playersOf df
  exact (hle.and hnd).imp (fun h => lt_of_le_of_ne h.1 h.2)

lemma notMem_playersOf_filter_eq_nil {df : List Row} {a : String}
    (h : a ∉ playersOf df) : df.filter (fun r => r.player == a) = [] := by
  rw [List.filter_eq_nil_iff]
  intro r hr hra
  exact h (mem_playersOf.mpr ⟨r, hr, by simpa using hra⟩)

/-- Filtering a key-grouped concatenation down to one key yields that
key's block (or nothing when the key has no block). -/
lemma filter_key_flatMap {β : Type} (key : β → String) (f : String → List β) :
    ∀ (ps : List String), ps.Nodup → (∀ b, ∀ x ∈ f b, key x = b) → ∀ a : String,
      ((ps.flatMap f).filter (fun x => key x == a)) = if a ∈ ps then f a else []
  | [], _, _, a => by simp
  | b :: ps, hnd, hf, a => by
      rw [List.flatMap_cons, List.filter_append,
        filter_key_flatMap key f ps (List.nodup_cons.mp hnd).2 hf a]
      by_cases hab : a = b
      · subst hab
        have h1 : (f a).filter (fun x => key x == a) = f a :=
          List.filter_eq_self.mpr (fun x hx => by simp [hf a x hx])
        have h2 : a ∉ ps := (List.nodup_cons.mp hnd).1
        simp [h1, h2]
      · have h1 : (f b).filter (fun x => key x == a) = [] :=
          List.filter_eq_nil_iff.mpr (fun x hx => by simp [hf b x hx]; exact fun h => hab h.symm)
        simp [h1, hab, List.mem_cons]

/- ### Characterisation of one outlier-bounding pass, per player -/

/-- The outlier bounder is definitionally the key-grouped concatenation of
per-player filters against that player's upper bound. -/
lemma remove_extreme_highs_eq (df : List Row) (metric : String) (multiplier : ℚ) :
    remove_extreme_highs df metric multiplier
      = (playersOf df).flatMap (fun a =>
          (df.filter (fun r => r.player == a)).filter
            (fun r => oLe (r.get metric)
              (upperOf (df.filter (fun r => r.player == a)) metric multiplier))) := rfl

/-- Per-player content of one bounding pass: exactly the player's input
rows that pass the comparison against the player's upper bound. -/
lemma filter_remove_extreme_highs (df : List Row) (metric : String) (multiplier : ℚ)
    (a : String) :
    (remove_extreme_highs df metric multiplier).filter (fun r => r.player == a)
      = (df.filter (fun r => r.player == a)).filter
          (fun r => oLe (r.get metric)
            (upperOf (df.filter (fun r => r.player == a)) metric multiplier)) := by
  rw [remove_extreme_highs_eq]
  rw [filter_key_flatMap Row.player _ (playersOf df) (nodup_playersOf df)
    (fun b x hx => by
      have : x ∈ df.filter (fun r => r.player == b) := List.mem_of_mem_filter hx
      simpa using (List.mem_filter.mp this).2) a]
  by_cases ha : a ∈ playersOf df
  · rw [if_pos ha]
  · rw [if_neg ha, notMem_playersOf_filter_eq_nil ha, List.filter_nil]

/- ### The enrichment stage, per player -/

lemma snd_mem_of_mem_enumFrom {α : Type} :
    ∀ (n : Nat) (l : List α) (q : Nat × α), q ∈ l.enumFrom n → q.2 ∈ l
  | _, [], _, h => by simp at h
  | n, a :: l, q, h => by
      rw [List.enumFrom] at h
      rcases List.mem_cons.mp h with h | h
      · rw [h]; exact List.mem_cons_self _ _
      · exact List.mem_cons_of_mem _ (snd_mem_of_mem_enumFrom (n + 1) l q h)

lemma snd_mem_of_mem_enum {α : Type} {l : List α} {q : Nat × α} (h : q ∈ l.enum) : q.2 ∈ l :=
  snd_mem_of_mem_enumFrom 0 l q h

lemma base_mem_of_mem_windowGroup {g : List Row} {x : WRow} (h : x ∈ windowGroup g) :
    x.base ∈ g := by
  unfold windowGroup at h
  simp only [List.mem_map] at h
  obtain ⟨q, hq, hx⟩ := h
  rw [← hx]
  exact snd_mem_of_mem_enum hq

/-- Per-player content of the enrichment stage: exactly the windowed
version of that player's group. -/
lemma filter_addWindowed (df : List Row) (a : String) :
    (addWindowed df).filter (fun x => x.base.player == a)
      = windowGroup (df.filter (fun r => r.player == a)) := by
  have h := filter_key_flatMap (fun x : WRow => x.base.player)
    (fun b => windowGroup (df.filter (fun r => r.player == b))) (playersOf df)
    (nodup_playersOf df)
    (fun b x hx => by
      have := base_mem_of_mem_windowGroup hx
      simpa using (List.mem_filter.mp this).2) a
  by_cases ha : a ∈ playersOf df
  · rw [if_pos ha] at h
    exact h
  · rw [if_neg ha] at h
    rw [notMem_playersOf_filter_eq_nil ha]
    exact h

/- ### The snapshot selector, per player -/

lemma tailOne_sublist : ∀ l : List WRow, (tailOne l).Sublist l
  | [] => List.Sublist.slnil
  | r :: rest => by
      rw [tailOne]
      split
      · exact (tailOne_sublist rest).cons r
      · exact (tailOne_sublist rest).cons₂ r

/-- Per-player content of `groupby(...).tail(1)`: the player's last row,
when the player has any row. -/
lemma filter_tailOne (a : String) : ∀ l : List WRow,
    (tailOne l).filter (fun x => x.base.player == a)
      = ((l.filter (fun x => x.base.player == a)).getLast?).toList
  | [] => by simp [tailOne]
  | r :: rest => by
      rw [tailOne]
      by_cases hany : rest.any (fun s => s.base.player == r.base.player)
      · rw [if_pos hany]
        rw [filter_tailOne a rest]
        by_cases hra : r.base.player = a
        · have hne : rest.filter (fun x => x.base.player == a) ≠ [] := by
            rcases List.any_eq_true.mp hany with ⟨s, hs, hsp⟩
            have : s ∈ rest.filter (fun x => x.base.player == a) :=
              List.mem_filter.mpr ⟨hs, by simp [beq_iff_eq.mp hsp, hra]⟩
            exact List.ne_nil_of_mem this
          rw [List.filter_cons_of_pos (by simp [hra])]
          obtain ⟨x, xs, hxs⟩ := List.exists_cons_of_ne_nil hne
          rw [hxs, List.getLast?_cons_cons]
        · rw [List.filter_cons_of_neg (by simp [hra])]
      · rw [if_neg hany]
        by_cases hra : r.base.player = a
        · have hnil : rest.filter (fun x => x.base.player == a) = [] := by
            rw [List.filter_eq_nil_iff]
            intro s hs hsp
            exact hany (List.any_eq_true.mpr ⟨s, hs, by simp [beq_iff_eq.mp hsp, hra]⟩)
          rw [List.filter_cons_of_pos (by simp [hra]), filter_tailOne a rest]
          rw [List.filter_cons_of_pos (by simp [hra]), hnil]
          rfl
        · rw [List.filter_cons_of_neg (by simp [hra]),
            List.filter_cons_of_neg (by simp [hra])]
          exact filter_tailOne a rest

/-- In a list that is pairwise related by a reflexive relation, every
element is related to the last element. -/
lemma pairwise_rel_getLast {α : Type} {R : α → α → Prop} (hrefl : ∀ x, R x x) :
    ∀ {l : List α} {x : α}, l.Pairwise R → l.getLast? = some x → ∀ r ∈ l, R r x
  | [], _, _, h, _ => by simp at h
  | [a], x, hp, hx, r => by
      intro hr
      rcases List.mem_singleton.mp hr with h
      rw [h]
      have : a = x := by simpa using hx
      rw [← this]
      exact hrefl a
  | a :: b :: l, x, hp, hx, r => by
      intro hr
      have hx' : (b :: l).getLast? = some x := by
        simpa [List.getLast?_cons_cons] using hx
      rcases List.mem_cons.mp hr with h | h
      · have hxm : x ∈ b :: l := List.mem_of_getLast?_eq_some hx'
        rw [h]
        exact (List.pairwise_cons.mp hp).1 x hxm
      · exact pairwise_rel_getLast hrefl (List.pairwise_cons.mp hp).2 hx' r h

/- ### Order facts for the two sort keys -/

lemma dLe_refl (x : Option Nat) : dLe x x = true := by cases x <;> simp [dLe]

lemma dLe_total (x y : Option Nat) : dLe x y = true ∨ dLe y x = true := by
  cases x <;> cases y <;> simp [dLe]
  exact Nat.le_total _ _

lemma dLe_trans {x y z : Option Nat} (h1 : dLe x y = true) (h2 : dLe y z = true) :
    dLe x z = true := by
  cases x <;> cases y <;> cases z <;> simp_all [dLe]
  all_goals omega

instance : IsTotal WRow wDateLe := ⟨fun a b => dLe_total a.base.date b.base.date⟩

instance : IsTrans WRow wDateLe := ⟨fun _ _ _ h1 h2 => dLe_trans h1 h2⟩

lemma rowLe_total (r s : Row) : rowLe r s = true ∨ rowLe s r = true := by
  unfold rowLe
  by_cases h : r.player = s.player
  · rw [if_pos h, if_pos h.symm]
    exact dLe_total _ _
  · rw [if_neg h, if_neg (Ne.symm h)]
    rcases lt_or_gt_of_ne h with hlt | hgt
    · exact Or.inl (decide_eq_true hlt)
    · exact Or.inr (decide_eq_true hgt)

lemma rowLe_trans {r s t : Row} (h1 : rowLe r s = true) (h2 : rowLe s t = true) :
    rowLe r t = true := by
  unfold rowLe at h1 h2 ⊢
  by_cases hrs : r.player = s.player <;> by_cases hst : s.player = t.player
  · rw [if_pos hrs] at h1
    rw [if_pos hst] at h2
    rw [if_pos (hrs.trans hst)]
    exact dLe_trans h1 h2
  · rw [if_neg hst] at h2
    have h2' : r.player < t.player := hrs ▸ of_decide_eq_true h2
    rw [if_neg (ne_of_lt h2')]
    exact decide_eq_true h2'
  · rw [if_neg hrs] at h1
    have h1' : r.player < t.player := hst ▸ of_decide_eq_true h1
    rw [if_neg (ne_of_lt h1')]
    exact decide_eq_true h1'
  · rw [if_neg hrs] at h1
    rw [if_neg hst] at h2
    have h' : r.player < t.player := lt_trans (of_decide_eq_true h1) (of_decide_eq_true h2)
    rw [if_neg (ne_of_lt h')]
    exact decide_eq_true h'

instance : IsTotal Row rowLeP := ⟨fun a b => rowLe_total a b⟩

instance : IsTrans Row rowLeP := ⟨fun _ _ _ h1 h2 => rowLe_trans h1 h2⟩

lemma pairwise_sortRows (df : List Row) : (sortRows df).Pairwise rowLeP :=
  List.sorted_insertionSort rowLeP df

lemma perm_sortRows (df : List Row) : List.Perm (sortRows df) df :=
  List.perm_insertionSort rowLeP df

lemma pairwise_sortByDate (l : List WRow) : (sortByDate l).Pairwise wDateLe :=
  List.sorted_insertionSort wDateLe l

lemma perm_sortByDate (l : List WRow) : List.Perm (sortByDate l) l :=
  List.perm_insertionSort wDateLe l

/-- A key-grouped concatenation with strictly ascending keys is pairwise
related by any relation that holds inside each block and across blocks of
ascending keys. -/
lemma pairwise_flatMap_of {β : Type} {R : β → β → Prop} (key : β → String)
    (f : String → List β) (hf : ∀ b, ∀ x ∈ f b, key x = b)
    (hin : ∀ b, (f b).Pairwise R)
    (hcross : ∀ a b x y, a < b → key x = a → key y = b → R x y) :
    ∀ ps : List String, ps.Pairwise (· < ·) → (ps.flatMap f).Pairwise R
  | [], _ => by simp
  | b :: ps, hp => by
      rw [List.flatMap_cons, List.pairwise_append]
      refine ⟨hin b, pairwise_flatMap_of key f hf hin hcross ps (List.pairwise_cons.mp hp).2, ?_⟩
      intro x hx y hy
      rcases List.mem_flatMap.mp hy with ⟨c, hc, hyc⟩
      exact hcross b c x y ((List.pairwise_cons.mp hp).1 c hc) (hf b x hx) (hf c y hyc)

/-- One outlier-bounding pass preserves the (player, date) ordering. -/
lemma pairwise_remove_extreme_highs (df : List Row) (metric : String) (multiplier : ℚ)
    (h : df.Pairwise rowLeP) :
    (remove_extreme_highs df metric multiplier).Pairwise rowLeP := by
  rw [remove_extreme_highs_eq]
  apply pairwise_flatMap_of Row.player _
    (fun b x hx => by
      have := List.mem_of_mem_filter hx
      simpa using (List.mem_filter.mp this).2)
    (fun b => (h.filter _).filter _)
    (fun a b x y hab hxa hyb => by
      unfold rowLeP rowLe
      rw [hxa, hyb, if_neg (ne_of_lt hab)]
      exact decide_eq_true hab)
    (playersOf df) (sorted_playersOf df)

/- ### Quantile interpolation facts -/

lemma sorted_getD_mono {xs : List ℚ} (hs : xs.Pairwise (fun a b : ℚ => a ≤ b))
    {i j : Nat} (hij : i ≤ j) (hj : j < xs.length) : xs.getD i 0 ≤ xs.getD j 0 := by
  have hi : i < xs.length := Nat.lt_of_le_of_lt hij hj
  rw [List.getD_eq_getElem _ _ hi, List.getD_eq_getElem _ _ hj]
  rcases Nat.eq_or_lt_of_le hij with h | h
  · subst h
    exact le_refl _
  · exact List.pairwise_iff_getElem.mp hs i j hi hj h

/-- Position, index and fraction facts plus the two neighbouring-value
bounds of one linear interpolation step on a sorted nonempty sample. -/
lemma interp_core {xs : List ℚ} (hs : xs.Pairwise (fun a b : ℚ => a ≤ b)) (hne : xs ≠ [])
    {p : ℚ} (hp0 : 0 ≤ p) (hp1 : p ≤ 1) :
    qidx xs p < xs.length ∧
    xs.getD (qidx xs p) 0 ≤ interp xs p ∧
    interp xs p ≤ xs.getD (qidx xs p + 1) (xs.getD (qidx xs p) 0) ∧
    xs.getD (qidx xs p) 0 ≤ xs.getD (qidx xs p + 1) (xs.getD (qidx xs p) 0) := by
  have hn1 : 1 ≤ xs.length := List.length_pos.mpr hne
  have hn1q : (1 : ℚ) ≤ (xs.length : ℚ) := by exact_mod_cast hn1
  have hpos0 : 0 ≤ qpos xs p := mul_nonneg hp0 (by linarith)
  have hposle : qpos xs p ≤ (xs.length : ℚ) - 1 := by
    calc qpos xs p ≤ 1 * ((xs.length : ℚ) - 1) :=
          mul_le_mul_of_nonneg_right hp1 (by linarith)
    _ = (xs.length : ℚ) - 1 := one_mul _
  have h0z : (0 : ℤ) ≤ ⌊qpos xs p⌋ := Int.floor_nonneg.mpr hpos0
  have hicast : ((qidx xs p : Nat) : ℚ) = ((⌊qpos xs p⌋ : ℤ) : ℚ) := by
    have : ((qidx xs p : Nat) : ℤ) = ⌊qpos xs p⌋ := Int.toNat_of_nonneg h0z
    exact_mod_cast congrArg (fun z : ℤ => (z : ℚ)) this
  have hfrac0 : 0 ≤ qpos xs p - ((qidx xs p : Nat) : ℚ) := by
    rw [hicast]
    have := Int.floor_le (qpos xs p)
    linarith
  have hfrac1 : qpos xs p - ((qidx xs p : Nat) : ℚ) < 1 := by
    rw [hicast]
    have := Int.lt_floor_add_one (qpos xs p)
    push_cast at this ⊢
    linarith
  have hilt : qidx xs p < xs.length := by
    have h3 : ⌊qpos xs p⌋ ≤ ⌊(xs.length : ℚ) - 1⌋ := Int.floor_le_floor hposle
    have h4 : ((xs.length : ℚ) - 1) = (((xs.length : ℤ) - 1 : ℤ) : ℚ) := by push_cast; ring
    rw [h4, Int.floor_intCast] at h3
    unfold qidx
    omega
  have hlohi : xs.getD (qidx xs p) 0 ≤ xs.getD (qidx xs p + 1) (xs.getD (qidx xs p) 0) := by
    by_cases hsucc : qidx xs p + 1 < xs.length
    · rw [List.getD_eq_getElem _ _ hsucc, List.getD_eq_getElem _ _ hilt]
      exact List.pairwise_iff_getElem.mp hs _ _ hilt hsucc (Nat.lt_succ_self _)
    · rw [List.getD_eq_default _ _ (show xs.length ≤ qidx xs p + 1 by omega)]
  refine ⟨hilt, ?_, ?_, hlohi⟩
  · unfold interp
    nlinarith [mul_nonneg hfrac0 (sub_nonneg.mpr hlohi)]
  · unfold interp
    nlinarith [mul_le_of_le_one_left (sub_nonneg.mpr hlohi) hfrac1.le]

/-- Linear-interpolation quantiles are monotone in the probability. -/
lemma interp_mono {xs : List ℚ} (hs : xs.Pairwise (fun a b : ℚ => a ≤ b)) (hne : xs ≠ [])
    {p q : ℚ} (hp0 : 0 ≤ p) (hpq : p ≤ q) (hq1 : q ≤ 1) :
    interp xs p ≤ interp xs q := by
  have hp1 : p ≤ 1 := le_trans hpq hq1
  have hq0 : 0 ≤ q := le_trans hp0 hpq
  obtain ⟨hiltp, hlop, hhip, hlohip⟩ := interp_core hs hne hp0 hp1
  obtain ⟨hiltq, hloq, hhiq, hlohiq⟩ := interp_core hs hne hq0 hq1
  have hn1 : 1 ≤ xs.length := List.length_pos.mpr hne
  have hn1q : (1 : ℚ) ≤ (xs.length : ℚ) := by exact_mod_cast hn1
  have hposmono : qpos xs p ≤ qpos xs q :=
    mul_le_mul_of_nonneg_right hpq (by linarith)
  have hidx : qidx xs p ≤ qidx xs q :=
    Int.toNat_le_toNat (Int.floor_le_floor hposmono)
  rcases Nat.eq_or_lt_of_le hidx with heq | hlt
  · unfold interp
    rw [heq]
    have hfq : qpos xs p - ((qidx xs q : Nat) : ℚ) ≤ qpos xs q - ((qidx xs q : Nat) : ℚ) := by
      linarith
    have hd : 0 ≤ xs.getD (qidx xs q + 1) (xs.getD (qidx xs q) 0) - xs.getD (qidx xs q) 0 :=
      sub_nonneg.mpr hlohiq
    nlinarith [mul_le_mul_of_nonneg_right hfq hd]
  · have hsucc : qidx xs p + 1 ≤ qidx xs q := hlt
    have hsucclt : qidx xs p + 1 < xs.length := lt_of_le_of_lt hsucc hiltq
    calc interp xs p ≤ xs.getD (qidx xs p + 1) (xs.getD (qidx xs p) 0) := hhip
    _ = xs.getD (qidx xs p + 1) 0 := by
          rw [List.getD_eq_getElem _ _ hsucclt, List.getD_eq_getElem _ _ hsucclt]
    _ ≤ xs.getD (qidx xs q) 0 := sorted_getD_mono hs hsucc hiltq
    _ ≤ interp xs q := hloq

lemma head_le_interp {xs : List ℚ} (hs : xs.Pairwise (fun a b : ℚ => a ≤ b)) (hne : xs ≠ [])
    {p : ℚ} (hp0 : 0 ≤ p) (hp1 : p ≤ 1) : xs.getD 0 0 ≤ interp xs p := by
  obtain ⟨hilt, hlo, _, _⟩ := interp_core hs hne hp0 hp1
  exact le_trans (sorted_getD_mono hs (Nat.zero_le _) hilt) hlo

/- ### The upper bound never falls below a group's minimum value -/

lemma sortedVals_sorted (g : List Row) (m : String) :
    (sortedVals g m).Pairwise (fun a b : ℚ => a ≤ b) :=
  List.sorted_insertionSort _ _

lemma sortedVals_perm (g : List Row) (m : String) :
    List.Perm (sortedVals g m) ((g.map (fun r => r.get m)).filterMap id) :=
  List.perm_insertionSort _ _

lemma sortedVals_ne_nil_iff {g : List Row} {m : String} :
    sortedVals g m ≠ [] ↔ (g.map (fun r => r.get m)).filterMap id ≠ [] := by
  have hp := sortedVals_perm g m
  constructor
  · intro h hmap
    apply h
    rw [hmap] at hp
    exact hp.eq_nil
  · intro h hsv
    apply h
    rw [hsv] at hp
    exact hp.symm.eq_nil

lemma quantile_vals_eq {g : List Row} {m : String} (hne : sortedVals g m ≠ []) (p : ℚ) :
    quantile (g.map (fun r => r.get m)) p = some (interp (sortedVals g m) p) := by
  show (if (sortedVals g m).isEmpty then none else some (interp (sortedVals g m) p))
    = some (interp (sortedVals g m) p)
  rw [if_neg (by simpa using hne)]

lemma upperOf_min {g : List Row} {m : String} {mult : ℚ} (hmult : 0 ≤ mult)
    (hne : sortedVals g m ≠ []) :
    ∃ u : ℚ, upperOf g m mult = some u ∧ (sortedVals g m).getD 0 0 ≤ u := by
  have hs := sortedVals_sorted g m
  refine ⟨interp (sortedVals g m) (3/4)
    + mult * (interp (sortedVals g m) (3/4) - interp (sortedVals g m) (1/4)), ?_, ?_⟩
  · unfold upperOf
    rw [quantile_vals_eq hne (3/4), quantile_vals_eq hne (1/4)]
    simp [oadd, omul, osub]
  · have hmono : interp (sortedVals g m) (1/4) ≤ interp (sortedVals g m) (3/4) :=
      interp_mono hs hne (by norm_num) (by norm_num) (by norm_num)
    have hhead : (sortedVals g m).getD 0 0 ≤ interp (sortedVals g m) (3/4) :=
      head_le_interp hs hne (by norm_num) (by norm_num)
    nlinarith

/-- A player group holding at least one non-NaN value for the bounded
metric keeps at least one row: the row attaining the group minimum always
passes the comparison against `Q3 + multiplier * IQR` when the multiplier
is nonnegative. -/
lemma remove_keeps_min (df : List Row) (m : String) {mult : ℚ} (hmult : 0 ≤ mult) (a : String)
    (hx : ∃ r ∈ df.filter (fun r => r.player == a), (r.get m).isSome = true) :
    (remove_extreme_highs df m mult).filter (fun r => r.player == a) ≠ [] := by
  obtain ⟨r0, hr0, hsome⟩ := hx
  have hmapne : ((df.filter (fun r => r.player == a)).map (fun r => r.get m)).filterMap id ≠ [] := by
    obtain ⟨q, hq⟩ := Option.isSome_iff_exists.mp hsome
    apply List.ne_nil_of_mem (a := q)
    rw [List.mem_filterMap]
    exact ⟨some q, List.mem_map.mpr ⟨r0, hr0, hq⟩, rfl⟩
  have hne : sortedVals (df.filter (fun r => r.player == a)) m ≠ [] :=
    sortedVals_ne_nil_iff.mpr hmapne
  obtain ⟨u, hu, hge⟩ := upperOf_min hmult hne
  have hlen : 0 < (sortedVals (df.filter (fun r => r.player == a)) m).length :=
    List.length_pos.mpr hne
  have hmem0 : (sortedVals (df.filter (fun r => r.player == a)) m).getD 0 0
      ∈ sortedVals (df.filter (fun r => r.player == a)) m := by
    rw [List.getD_eq_getElem _ _ hlen]
    exact List.getElem_mem hlen
  have hmem1 := (sortedVals_perm (df.filter (fun r => r.player == a)) m).subset hmem0
  rw [List.mem_filterMap] at hmem1
  obtain ⟨v, hv, hid⟩ := hmem1
  rw [List.mem_map] at hv
  obtain ⟨rmin, hrmin, hrv⟩ := hv
  rw [filter_remove_extreme_highs]
  apply List.ne_nil_of_mem (a := rmin)
  refine List.mem_filter.mpr ⟨hrmin, ?_⟩
  have hval : rmin.get m
      = some ((sortedVals (df.filter (fun r => r.player == a)) m).getD 0 0) := by
    rw [hrv]
    exact hid
  rw [hval, hu]
  exact decide_eq_true hge

/- ### Position-only athletes through the pipeline -/

lemma mergeRight_player_nan {w : List LoadRecord} {p : List PositionRecord} {a : String}
    (hw : ∀ lr ∈ w, lr.player ≠ a) :
    ∀ r ∈ mergeRight w p, r.player = a → r.hsr = none := by
  intro r hr hra
  unfold mergeRight at hr
  rw [List.mem_flatMap] at hr
  obtain ⟨pr, hpr, hrpr⟩ := hr
  by_cases hms : (w.filter (fun lr => lr.player == pr.player)).isEmpty
  · rw [if_pos hms] at hrpr
    rw [List.mem_singleton.mp hrpr]
  · rw [if_neg hms] at hrpr
    rw [List.mem_map] at hrpr
    obtain ⟨lr, hlr, hrlr⟩ := hrpr
    have hne : lr.player ≠ a := hw lr (List.mem_of_mem_filter hlr)
    have hpl : r.player = lr.player := by rw [← hrlr]
    exact absurd (hpl.symm.trans hra) hne

lemma mergeRight_exists_row {w : List LoadRecord} {p : List PositionRecord} {a : String}
    (hp : ∃ pr ∈ p, pr.player = a) (hw : ∀ lr ∈ w, lr.player ≠ a) :
    ∃ r ∈ mergeRight w p, r.player = a := by
  obtain ⟨pr, hpr, hpra⟩ := hp
  have hms : (w.filter (fun lr => lr.player == pr.player)).isEmpty = true := by
    simp only [List.isEmpty_iff, List.filter_eq_nil_iff]
    intro lr hlr heq
    exact hw lr hlr ((beq_iff_eq.mp heq).trans hpra)
  refine ⟨{ player := pr.player, date := none, position := pr.position, hsr := none, dsl := none }, ?_, hpra⟩
  unfold mergeRight
  rw [List.mem_flatMap]
  exact ⟨pr, hpr, by rw [if_pos hms]; exact List.mem_singleton_self _⟩

lemma merged_df_player_nan {w : List LoadRecord} {p : List PositionRecord} {a : String}
    (hw : ∀ lr ∈ w, lr.player ≠ a) :
    ∀ r ∈ merged_df w p, r.player = a → r.hsr = none := by
  intro r hr hra
  have hmem : r ∈ mergeRight w p := (perm_sortRows (mergeRight w p)).subset hr
  exact mergeRight_player_nan hw r hmem hra

lemma merged_df_filter_ne_nil {w : List LoadRecord} {p : List PositionRecord} {a : String}
    (hp : ∃ pr ∈ p, pr.player = a) (hw : ∀ lr ∈ w, lr.player ≠ a) :
    (merged_df w p).filter (fun r => r.player == a) ≠ [] := by
  obtain ⟨r, hr, hra⟩ := mergeRight_exists_row hp hw
  have hmem : r ∈ merged_df w p := (perm_sortRows (mergeRight w p)).symm.subset hr
  exact List.ne_nil_of_mem (List.mem_filter.mpr ⟨hmem, by simp [hra]⟩)

/-- The two-metric bounding loop literally is the two sequential passes. -/
lemma merged_bounded_eq (w : List LoadRecord) (p : List PositionRecord) :
    merged_bounded w p
      = remove_extreme_highs
          (remove_extreme_highs (merged_df w p) "High Speed Running" (5/2)) "DSL" (5/2) := rfl

lemma no_load_bounded_empty {w : List LoadRecord} {p : List PositionRecord} {a : String}
    (hw : ∀ lr ∈ w, lr.player ≠ a) :
    (merged_bounded w p).filter (fun r => r.player == a) = [] := by
  have h1 : (remove_extreme_highs (merged_df w p) "High Speed Running" (5/2)).filter
      (fun r => r.player == a) = [] := by
    rw [filter_remove_extreme_highs, List.filter_eq_nil_iff]
    intro r hr
    have hmem : r ∈ merged_df w p := List.mem_of_mem_filter hr
    have hra : r.player = a := by simpa using (List.mem_filter.mp hr).2
    have hnan : r.hsr = none := merged_df_player_nan hw r hmem hra
    have hget : r.get "High Speed Running" = none := by
      unfold Row.get
      rw [if_pos rfl, hnan]
    rw [hget, oLe_none_left]
    simp
  rw [merged_bounded_eq, filter_remove_extreme_highs, h1]
  rfl

lemma no_load_windowed_empty {w : List LoadRecord} {p : List PositionRecord} {a : String}
    (hw : ∀ lr ∈ w, lr.player ≠ a) :
    (merged_windowed w p).filter (fun x => x.base.player == a) = [] := by
  unfold merged_windowed
  rw [filter_addWindowed, no_load_bounded_empty hw]
  rfl

lemma no_load_latest_empty {w : List LoadRecord} {p : List PositionRecord} {a : String}
    (hw : ∀ lr ∈ w, lr.player ≠ a) :
    (latest_table w p).filter (fun x => x.base.player == a) = [] := by
  unfold latest_table latest_df
  rw [filter_tailOne]
  have hperm : List.Perm ((sortByDate (merged_windowed w p)).filter (fun x => x.base.player == a))
      ((merged_windowed w p).filter (fun x => x.base.player == a)) :=
    (perm_sortByDate (merged_windowed w p)).filter _
  rw [no_load_windowed_empty hw] at hperm
  rw [hperm.eq_nil]
  rfl

/- ### Rolling windows on fully numeric columns -/

lemma all_some_eq_map {l : List (Option ℚ)} (h : ∀ v ∈ l, v.isSome = true) :
    ∃ qs : List ℚ, l = qs.map some := by
  induction l with
  | nil => exact ⟨[], rfl⟩
  | cons v t ih =>
      obtain ⟨q, hq⟩ := Option.isSome_iff_exists.mp (h v (List.mem_cons_self v t))
      obtain ⟨qs, hqs⟩ := ih (fun x hx => h x (List.mem_cons_of_mem v hx))
      exact ⟨q :: qs, by rw [hq, hqs]; rfl⟩

lemma length_sliceW (qs : List ℚ) (w i : Nat) :
    (sliceW qs w i).length = min (i + 1) qs.length - (i + 1 - w) := by
  unfold sliceW
  rw [List.length_drop, List.length_take]

lemma sliceW_ne_nil {qs : List ℚ} {w i : Nat} (hw : 0 < w) (hi : i < qs.length) :
    sliceW qs w i ≠ [] := by
  intro hnil
  have hlen := length_sliceW qs w i
  rw [hnil] at hlen
  simp at hlen
  omega

/-- On a column with no missing values, the `min_periods=1` rolling mean
at every in-range position is the plain mean of the trailing window. -/
lemma rollingMean_map_some {qs : List ℚ} {w i : Nat} (hw : 0 < w) (hi : i < qs.length) :
    rollingMean w (qs.map some) i = some (meanQ (sliceW qs w i)) := by
  unfold rollingMean
  have h1 : ((qs.map some).take (i + 1)).drop (i + 1 - w) = (sliceW qs w i).map some := by
    unfold sliceW
    rw [← List.map_take, ← List.map_drop]
  have h2 : (((qs.map some).take (i + 1)).drop (i + 1 - w)).filterMap id = sliceW qs w i := by
    rw [h1]
    simp
  rw [h2, if_neg (by simpa using sliceW_ne_nil hw hi)]
  rfl

lemma length_windowGroup (g : List Row) : (windowGroup g).length = g.length := by
  unfold windowGroup
  rw [List.length_map, List.enum_length]

/-- Field content of the enriched row at position `i` of a group. -/
lemma windowGroup_getD {g : List Row} {i : Nat} (hi : i < g.length) :
    (windowGroup g).getD i default
      = { base := g.getD i default
          acuteHSR := rollingMean 7 (g.map (fun r => r.get "High Speed Running")) i
          chronicHSR := rollingMean 28 (g.map (fun r => r.get "High Speed Running")) i
          acwrHSR := fdiv (rollingMean 7 (g.map (fun r => r.get "High Speed Running")) i)
            (rollingMean 28 (g.map (fun r => r.get "High Speed Running")) i)
          acuteDSL := rollingMean 7 (g.map (fun r => r.get "DSL")) i
          chronicDSL := rollingMean 28 (g.map (fun r => r.get "DSL")) i
          acwrDSL := fdiv (rollingMean 7 (g.map (fun r => r.get "DSL")) i)
            (rollingMean 28 (g.map (fun r => r.get "DSL")) i) } := by
  have hlen : i < (windowGroup g).length := by
    rw [length_windowGroup]
    exact hi
  rw [List.getD_eq_getElem _ _ hlen, List.getD_eq_getElem _ _ hi]
  simp only [windowGroup, List.getElem_map, List.getElem_enum]

/- ### After bounding, the bounded metrics hold no missing values -/

lemma mem_remove_subset {df : List Row} {metric : String} {mult : ℚ} :
    ∀ r ∈ remove_extreme_highs df metric mult, r ∈ df := by
  intro r hr
  rw [remove_extreme_highs_eq] at hr
  rw [List.mem_flatMap] at hr
  obtain ⟨b, _, hrb⟩ := hr
  exact List.mem_of_mem_filter (List.mem_of_mem_filter hrb)

lemma remove_get_isSome {df : List Row} {metric : String} {mult : ℚ} :
    ∀ r ∈ remove_extreme_highs df metric mult, (r.get metric).isSome = true := by
  intro r hr
  rw [remove_extreme_highs_eq] at hr
  rw [List.mem_flatMap] at hr
  obtain ⟨b, _, hrb⟩ := hr
  have hle := (List.mem_filter.mp hrb).2
  obtain ⟨x, y, hx, _, _⟩ := oLe_eq_true_iff.mp hle
  rw [hx]
  rfl

lemma bounded_hsr_isSome {w : List LoadRecord} {p : List PositionRecord} :
    ∀ r ∈ merged_bounded w p, (r.get "High Speed Running").isSome = true := by
  intro r hr
  rw [merged_bounded_eq] at hr
  exact remove_get_isSome r (mem_remove_subset r hr)

lemma bounded_dsl_isSome {w : List LoadRecord} {p : List PositionRecord} :
    ∀ r ∈ merged_bounded w p, (r.get "DSL").isSome = true := by
  intro r hr
  rw [merged_bounded_eq] at hr
  exact remove_get_isSome r hr

/- ### Column-name analysis for the chart callback -/

lemma acute_prefix_data {m c : String} (h : "Acute_" ++ m = c) :
    c.data.take 6 = "Acute_".data := by
  have hd : "Acute_".data ++ m.data = c.data := by
    rw [← h]
    exact (String.data_append "Acute_" m).symm ▸ rfl
  rw [← hd]
  exact List.take_left' (by decide)

lemma eq_of_acute_append {m t : String} (h : "Acute_" ++ m = "Acute_" ++ t) : m = t := by
  have hd := congrArg String.data h
  rw [String.data_append, String.data_append] at hd
  exact String.ext (List.append_cancel_left hd)

/-- The only table columns of the form `Acute_{m}` are those of the two
configured metrics. -/
lemma mem_tableCols_acute {m : String} (h : ("Acute_" ++ m) ∈ tableCols) :
    m = "High Speed Running" ∨ m = "DSL" := by
  have htake := acute_prefix_data (c := "Acute_" ++ m) rfl
  simp only [tableCols, List.mem_cons, List.not_mem_nil, or_false] at h
  rcases h with h | h | h | h | h | h | h | h | h | h | h
  · exact absurd (h ▸ htake) (by decide)
  · exact absurd (h ▸ htake) (by decide)
  · exact absurd (h ▸ htake) (by decide)
  · exact absurd (h ▸ htake) (by decide)
  · exact absurd (h ▸ htake) (by decide)
  · exact Or.inl (eq_of_acute_append (h.trans (by decide)))
  · exact absurd (h ▸ htake) (by decide)
  · exact absurd (h ▸ htake) (by decide)
  · exact Or.inr (eq_of_acute_append (h.trans (by decide)))
  · exact absurd (h ▸ htake) (by decide)
  · exact absurd (h ▸ htake) (by decide)

lemma cols_known_iff (m : String) :
    (tableCols.contains ("Acute_" ++ m) && tableCols.contains ("Chronic_" ++ m)) = true
      ↔ (m = "High Speed Running" ∨ m = "DSL") := by
  constructor
  · intro h
    have h1 : ("Acute_" ++ m) ∈ tableCols := by
      have := (Bool.and_eq_true _ _).mp h
      exact List.elem_iff.mp this.1
    exact mem_tableCols_acute h1
  · rintro (rfl | rfl) <;> decide

/-- The callback succeeds for any position selection whenever the metric
is one of the configured metrics. -/
lemma update_chart_ok (df0 : List WRow) (sp : Option String) (m : String)
    (hm : m = "High Speed Running" ∨ m = "DSL") :
    ∃ out, update_chart df0 sp m = Except.ok out := by
  simp only [update_chart]
  rw [if_pos ((cols_known_iff m).mpr hm)]
  exact ⟨_, rfl⟩

/-- The callback raises KeyError at the `dropna` step for any metric
outside the configured metric set. -/
lemma update_chart_err (df0 : List WRow) (sp : Option String) (m : String)
    (hm : ¬(m = "High Speed Running" ∨ m = "DSL")) :
    update_chart df0 sp m = Except.error "KeyError" := by
  simp only [update_chart]
  rw [if_neg (fun hcond => hm ((cols_known_iff m).mp hcond))]

/- ### Snapshot selection per player -/

/-- For a player with at least one enriched row, the selector output holds
exactly one row of that player: the last of the player's rows in the
date-sorted table, whose date bounds all the player's dates from above. -/
lemma latest_df_filter (l : List WRow) (a : String)
    (h : l.filter (fun x => x.base.player == a) ≠ []) :
    ∃ x, ((sortByDate l).filter (fun x => x.base.player == a)).getLast? = some x ∧
      (latest_df l).filter (fun x => x.base.player == a) = [x] ∧
      x ∈ l.filter (fun x => x.base.player == a) ∧
      ∀ r ∈ l.filter (fun x => x.base.player == a), dLe r.base.date x.base.date = true := by
  have hperm := (perm_sortByDate l).filter (fun x => x.base.player == a)
  have hne : (sortByDate l).filter (fun x => x.base.player == a) ≠ [] := by
    intro hnil
    rw [hnil] at hperm
    exact h hperm.symm.eq_nil
  obtain ⟨x, hgl⟩ := Option.isSome_iff_exists.mp (List.getLast?_isSome.mpr hne)
  refine ⟨x, hgl, ?_, ?_, ?_⟩
  · unfold latest_df
    rw [filter_tailOne, hgl]
    rfl
  · exact hperm.subset (List.mem_of_getLast?_eq_some hgl)
  · intro r hr
    have hrs : r ∈ (sortByDate l).filter (fun x => x.base.player == a) := hperm.symm.subset hr
    have hpw : ((sortByDate l).filter (fun x => x.base.player == a)).Pairwise wDateLe :=
      (pairwise_sortByDate l).filter _
    exact pairwise_rel_getLast (R := wDateLe) (fun y => dLe_refl y.base.date) hpw hgl r hrs

/- ### Claim theorems -/

/-- C1 (counterexample): athlete `B` is in the position registry with no
load records and appears in the joined table, yet the final Snapshot
output contains no entry for `B` — the claim that such athletes always
appear in the output with undefined fields is false on this input. -/
theorem C1_counterexample :
    ((merged_df wEx1 pEx1).filter (fun r => r.player == "B")).length = 1 ∧
    (latest_table wEx1 pEx1).filter (fun x => x.base.player == "B") = [] := by
  constructor
  · have hperm := (perm_sortRows (mergeRight wEx1 pEx1)).filter (fun r => r.player == "B")
    rw [show merged_df wEx1 pEx1 = sortRows (mergeRight wEx1 pEx1) from rfl, hperm.length_eq]
    decide
  · exact no_load_latest_empty (by decide)

/-- C1 (amended): an athlete present in the position registry with no
load records does appear in the joined sorted table (one all-NaN row),
but the first outlier-bounding pass drops every row whose bounded-metric
value is missing (NaN fails the `<=` comparison), so the athlete's rows
vanish during bounding and the final Snapshot output has no entry for
that athlete. -/
theorem C1_theorem (w : List LoadRecord) (p : List PositionRecord) (a : String)
    (hp : ∃ pr ∈ p, pr.player = a) (hw : ∀ lr ∈ w, lr.player ≠ a) :
    (merged_df w p).filter (fun r => r.player == a) ≠ [] ∧
    (merged_bounded w p).filter (fun r => r.player == a) = [] ∧
    (latest_table w p).filter (fun x => x.base.player == a) = [] :=
  ⟨merged_df_filter_ne_nil hp hw, no_load_bounded_empty hw, no_load_latest_empty hw⟩

/-- Witness for C1: the amended statement instantiated at the concrete
registry in which athlete `B` has a position but no load rows. -/
theorem C1_witness :
    (merged_df wEx1 pEx1).filter (fun r => r.player == "B") ≠ [] ∧
    (merged_bounded wEx1 pEx1).filter (fun r => r.player == "B") = [] ∧
    (latest_table wEx1 pEx1).filter (fun x => x.base.player == "B") = [] :=
  C1_theorem wEx1 pEx1 "B" (by decide) (by decide)

/-- C4: the outlier bounder is applied once per metric in sequence — the
bounding stage literally is the `DSL` pass applied to the output of the
`High Speed Running` pass — and for each athlete the quantile basis of
the `DSL` pass is exactly that athlete's rows that survived the first
pass. -/
theorem C4_theorem (w : List LoadRecord) (p : List PositionRecord) (a : String) :
    merged_bounded w p
      = remove_extreme_highs
          (remove_extreme_highs (merged_df w p) "High Speed Running" (5/2)) "DSL" (5/2) ∧
    (merged_bounded w p).filter (fun r => r.player == a)
      = ((remove_extreme_highs (merged_df w p) "High Speed Running" (5/2)).filter
            (fun r => r.player == a)).filter
          (fun r => oLe (r.get "DSL")
            (upperOf ((remove_extreme_highs (merged_df w p) "High Speed Running" (5/2)).filter
              (fun r => r.player == a)) "DSL" (5/2))) :=
  ⟨merged_bounded_eq w p, by rw [merged_bounded_eq, filter_remove_extreme_highs]⟩

/-- C6: for every athlete with at least one enriched row, the snapshot
selector returns exactly one row for that athlete — the last of the
athlete's rows in ascending date-sorted order — and its session date is
maximal among the athlete's rows. -/
theorem C6_theorem (l : List WRow) (a : String)
    (h : l.filter (fun x => x.base.player == a) ≠ []) :
    ∃ x, ((sortByDate l).filter (fun x => x.base.player == a)).getLast? = some x ∧
      (latest_df l).filter (fun x => x.base.player == a) = [x] ∧
      x ∈ l.filter (fun x => x.base.player == a) ∧
      ∀ r ∈ l.filter (fun x => x.base.player == a), dLe r.base.date x.base.date = true :=
  latest_df_filter l a h

/-- Witness for C6: the selector applied to a two-row athlete table. -/
theorem C6_witness :
    ∃ x, ((sortByDate lEx6).filter (fun x => x.base.player == "A")).getLast? = some x ∧
      (latest_df lEx6).filter (fun x => x.base.player == "A") = [x] ∧
      x ∈ lEx6.filter (fun x => x.base.player == "A") ∧
      ∀ r ∈ lEx6.filter (fun x => x.base.player == "A"), dLe r.base.date x.base.date = true :=
  C6_theorem lEx6 "A" (by decide)

/-- C7: the joined table is sorted by (athlete ascending, session date
ascending), and every outlier-bounding pass maps a table sorted that way
to a table sorted the same way. -/
theorem C7_theorem :
    (∀ (w : List LoadRecord) (p : List PositionRecord), (merged_df w p).Pairwise rowLeP) ∧
    (∀ (df : List Row) (metric : String) (mult : ℚ), df.Pairwise rowLeP →
      (remove_extreme_highs df metric mult).Pairwise rowLeP) :=
  ⟨fun w p => pairwise_sortRows (mergeRight w p),
   fun df metric mult h => pairwise_remove_extreme_highs df metric mult h⟩

/-- Witness for C7: the ordering invariant at a concrete join input and a
concrete bounding input. -/
theorem C7_witness :
    (merged_df wEx1 pEx1).Pairwise rowLeP ∧
    (remove_extreme_highs dfC2 "DSL" (5/2)).Pairwise rowLeP :=
  ⟨C7_theorem.1 wEx1 pEx1, C7_theorem.2 dfC2 "DSL" (5/2) (by decide)⟩

/-- C8: one bounding pass only removes rows — per athlete, the output is
a sublist of the input (so no retained row has any field modified and the
row count does not grow), and every retained row's metric value is a
numeric value bounded by the group's numeric upper bound. -/
theorem C8_theorem (df : List Row) (metric : String) (mult : ℚ) (a : String) :
    ((remove_extreme_highs df metric mult).filter (fun r => r.player == a)).Sublist
        (df.filter (fun r => r.player == a)) ∧
    ((remove_extreme_highs df metric mult).filter (fun r => r.player == a)).length
        ≤ (df.filter (fun r => r.player == a)).length ∧
    ∀ r ∈ (remove_extreme_highs df metric mult).filter (fun r => r.player == a),
      ∃ q u : ℚ, r.get metric = some q
        ∧ upperOf (df.filter (fun r => r.player == a)) metric mult = some u ∧ q ≤ u := by
  rw [filter_remove_extreme_highs]
  refine ⟨List.filter_sublist _, List.length_filter_le _ _, ?_⟩
  intro r hr
  exact oLe_eq_true_iff.mp (List.mem_filter.mp hr).2

/-- C9 (counterexample): a metric outside the configured set makes the
chart callback raise a KeyError instead of falling back — the claim that
it never raises is false. -/
theorem C9_counterexample :
    update_chart [] none "Sprint Distance" = Except.error "KeyError" :=
  update_chart_err [] none "Sprint Distance" (by decide)

/-- C9 (amended): for a metric in the configured set the callback returns
normally for every position selection — an unrecognized position merely
filters the table, possibly to empty — but for a metric outside the
configured set the `dropna` subset references missing columns and the
callback raises a KeyError rather than falling back. -/
theorem C9_theorem :
    (∀ (df0 : List WRow) (sp : Option String) (m : String),
      m = "High Speed Running" ∨ m = "DSL" →
        ∃ out, update_chart df0 sp m = Except.ok out) ∧
    (∀ (df0 : List WRow) (sp : Option String) (m : String),
      ¬(m = "High Speed Running" ∨ m = "DSL") →
        update_chart df0 sp m = Except.error "KeyError") :=
  ⟨update_chart_ok, update_chart_err⟩

/-- Witness for C9: the callback succeeds on the `DSL` metric with an
unrecognized position selection, and raises on an unknown metric. -/
theorem C9_witness :
    (∃ out, update_chart lEx6 (some "Unknown Position") "DSL" = Except.ok out) ∧
    update_chart lEx6 none "Total Distance" = Except.error "KeyError" :=
  ⟨C9_theorem.1 lEx6 (some "Unknown Position") "DSL" (Or.inr rfl),
   C9_theorem.2 lEx6 none "Total Distance" (by decide)⟩

/-- C10: one bounding pass with a nonnegative multiplier keeps at least
one row of every athlete group holding at least one non-missing value of
the bounded metric: the upper bound is at least Q3, which is at least the
group minimum, so the row attaining the minimum survives. -/
theorem C10_theorem (df : List Row) (metric : String) (mult : ℚ) (hmult : 0 ≤ mult)
    (a : String)
    (hx : ∃ r ∈ df.filter (fun r => r.player == a), (r.get metric).isSome = true) :
    (remove_extreme_highs df metric mult).filter (fun r => r.player == a) ≠ [] :=
  remove_keeps_min df metric hmult a hx

/-- Witness for C10: the group of athlete `A` keeps a row when bounding
`High Speed Running` with the pipeline's multiplier. -/
theorem C10_witness :
    (remove_extreme_highs dfC2 "High Speed Running" (5/2)).filter
      (fun r => r.player == "A") ≠ [] :=
  C10_theorem dfC2 "High Speed Running" (5/2) (by norm_num) "A"
    ⟨{ player := "A", date := some 1, position := some "FW", hsr := some 10, dsl := some 1 },
      by simp [dfC2], by simp [Row.get]⟩

/-- C2 (amended): one bounding pass keeps, per athlete, exactly the rows
whose metric value passes the missing-aware comparison against the
athlete's upper bound — and a missing (NaN) value never passes that
comparison, so null rows are dropped rather than retained. -/
theorem C2_theorem (df : List Row) (metric : String) (mult : ℚ) (a : String) :
    (remove_extreme_highs df metric mult).filter (fun r => r.player == a)
      = (df.filter (fun r => r.player == a)).filter
          (fun r => oLe (r.get metric)
            (upperOf (df.filter (fun r => r.player == a)) metric mult)) ∧
    ∀ u : Option ℚ, oLe none u = false :=
  ⟨filter_remove_extreme_highs df metric mult a, oLe_none_left⟩

/-- C3 (amended): dividing a defined acute average by a zero chronic
average yields a signed infinity when the acute average is nonzero and
NaN only when it is zero; the colour rule classifies `+inf` as red
(over-loaded) and NaN as grey (the normal colour) instead of excluding
such rows, and a row with a defined acute value and zero chronic value is
never dropped by the `dropna(how="all")` step; no error is raised. -/
theorem C3_theorem :
    (∀ a : ℚ, a ≠ 0 → fdiv (some a) (some 0) = if 0 < a then FVal.inf else FVal.ninf) ∧
    fdiv (some 0) (some 0) = FVal.nan ∧
    barColor FVal.inf = "red" ∧
    barColor FVal.ninf = "blue" ∧
    barColor FVal.nan = "grey" ∧
    (∀ x : WRow, x.acuteHSR.isSome = true →
      (!(x.acuteHSR.isNone && x.chronicHSR.isNone)) = true) := by
  refine ⟨?_, rfl, rfl, rfl, rfl, ?_⟩
  · intro a ha
    simp only [fdiv]
    rw [if_pos trivial, if_neg ha]
  · intro x hx
    rcases hopt : x.acuteHSR with _ | v
    · rw [hopt] at hx
      simp at hx
    · simp [hopt]

/-- Witness for C3: the division and classification facts at the concrete
acute value `5`. -/
theorem C3_witness :
    fdiv (some (5 : ℚ)) (some 0) = (if (0 : ℚ) < 5 then FVal.inf else FVal.ninf) ∧
    barColor FVal.inf = "red" :=
  ⟨C3_theorem.1 5 (by norm_num), C3_theorem.2.2.1⟩

/-- C2 (counterexample): the input group of athlete `A` has exactly one
row with a missing `High Speed Running` value, yet after one bounding
pass no row with a missing value remains (while the group itself is not
emptied) — the claim that null rows are retained is false. -/
theorem C2_counterexample :
    (dfC2.filter (fun r => r.hsr.isNone)).length = 1 ∧
    ((remove_extreme_highs dfC2 "High Speed Running" (5/2)).filter
      (fun r => r.hsr.isNone)).length = 0 ∧
    (remove_extreme_highs dfC2 "High Speed Running" (5/2)).filter
      (fun r => r.player == "A") ≠ [] := by
  refine ⟨by decide, ?_, ?_⟩
  · rw [List.length_eq_zero, List.filter_eq_nil_iff]
    intro r hr hnone
    have hsome := remove_get_isSome r hr
    have hcol : r.get "High Speed Running" = r.hsr := by
      unfold Row.get
      rw [if_pos rfl]
    rw [hcol] at hsome
    rcases hopt : r.hsr with _ | v
    · rw [hopt] at hsome
      simp at hsome
    · rw [hopt] at hnone
      simp at hnone
  · exact remove_keeps_min dfC2 "High Speed Running" (by norm_num) "A"
      ⟨{ player := "A", date := some 1, position := some "FW", hsr := some 10, dsl := some 1 },
        by simp [dfC2], by simp [Row.get]⟩

/-- C3 (counterexample): an enriched row of athlete `A` whose chronic
average is `0` and acute average is `5` gets the ACWR value `+inf` — not
an undefined value — and the chart callback classifies it red
(over-loaded) instead of excluding it from classification. -/
theorem C3_counterexample :
    ∃ x ∈ windowGroup g8, x.chronicHSR = some 0 ∧ x.acuteHSR = some 5 ∧
      x.acwrHSR = FVal.inf ∧
      update_chart [x] none "High Speed Running" = Except.ok ["red"] := by
  have hlen : (7 : Nat) < g8.length := by decide
  have hhs : g8.map (fun r => r.get "High Speed Running")
      = ([-35, 5, 5, 5, 5, 5, 5, 5] : List ℚ).map some := by
    simp [g8, rowA, Row.get]
  have hds : g8.map (fun r => r.get "DSL")
      = ([0, 0, 0, 0, 0, 0, 0, 0] : List ℚ).map some := by
    simp [g8, rowA, Row.get]
  have hW := windowGroup_getD hlen
  rw [hhs, hds] at hW
  rw [rollingMean_map_some (by norm_num) (by norm_num),
    rollingMean_map_some (by norm_num) (by norm_num),
    rollingMean_map_some (by norm_num) (by norm_num),
    rollingMean_map_some (by norm_num) (by norm_num)] at hW
  have hm1 : meanQ (sliceW ([-35, 5, 5, 5, 5, 5, 5, 5] : List ℚ) 7 7) = 5 := by
    norm_num [meanQ, sliceW]
  have hm2 : meanQ (sliceW ([-35, 5, 5, 5, 5, 5, 5, 5] : List ℚ) 28 7) = 0 := by
    norm_num [meanQ, sliceW]
  have hm3 : meanQ (sliceW ([0, 0, 0, 0, 0, 0, 0, 0] : List ℚ) 7 7) = 0 := by
    norm_num [meanQ, sliceW]
  have hm4 : meanQ (sliceW ([0, 0, 0, 0, 0, 0, 0, 0] : List ℚ) 28 7) = 0 := by
    norm_num [meanQ, sliceW]
  rw [hm1, hm2, hm3, hm4] at hW
  have hf1 : fdiv (some (5 : ℚ)) (some 0) = FVal.inf := by norm_num [fdiv]
  have hf2 : fdiv (some (0 : ℚ)) (some 0) = FVal.nan := by norm_num [fdiv]
  rw [hf1, hf2] at hW
  have hl2 : (7 : Nat) < (windowGroup g8).length := by
    rw [length_windowGroup]
    exact hlen
  refine ⟨(windowGroup g8).getD 7 default, ?_, ?_, ?_, ?_, ?_⟩
  · rw [List.getD_eq_getElem _ _ hl2]
    exact List.getElem_mem hl2
  · rw [hW]
  · rw [hW]
  · rw [hW]
  · rw [hW]
    rfl

/-- Evaluation of the single-athlete example pipeline through the
bounding stage: the sole row survives both passes. -/
lemma merged_bounded_ex : merged_bounded wEx1 pEx5 = [rEx1] := by
  have hmerge : mergeRight wEx1 pEx5 = [rEx1] := by
    simp [mergeRight, wEx1, pEx5, rEx1]
  have hm : merged_df wEx1 pEx5 = [rEx1] := by
    unfold merged_df sortRows
    rw [hmerge]
    rfl
  have hps : playersOf [rEx1] = ["A"] := by decide
  have hgr : [rEx1].filter (fun r => r.player == "A") = [rEx1] := rfl
  have h1 : remove_extreme_highs [rEx1] "High Speed Running" (5/2) = [rEx1] := by
    rw [remove_extreme_highs_eq, hps]
    simp only [List.flatMap_cons, List.flatMap_nil, List.append_nil]
    rw [hgr]
    have hup : upperOf [rEx1] "High Speed Running" (5/2) = some 10 := by
      norm_num [upperOf, quantile, interp, qidx, qpos, Row.get, rEx1, oadd, osub, omul,
        List.insertionSort, List.orderedInsert]
    simp only [hup]
    have hget : rEx1.get "High Speed Running" = some 10 := rfl
    simp only [List.filter_cons, List.filter_nil, hget, oLe]
    norm_num
  have h2 : remove_extreme_highs [rEx1] "DSL" (5/2) = [rEx1] := by
    rw [remove_extreme_highs_eq, hps]
    simp only [List.flatMap_cons, List.flatMap_nil, List.append_nil]
    rw [hgr]
    have hup : upperOf [rEx1] "DSL" (5/2) = some 20 := by
      norm_num [upperOf, quantile, interp, qidx, qpos, Row.get, rEx1, oadd, osub, omul,
        List.insertionSort, List.orderedInsert]
    simp only [hup]
    have hget : rEx1.get "DSL" = some 20 := rfl
    simp only [List.filter_cons, List.filter_nil, hget, oLe]
    norm_num
  rw [merged_bounded_eq, hm, h1, h2]

/-- C5: in the enriched table, for every athlete and every in-range
position `i`, the two bounded metric columns are fully numeric and the
row's acute field equals the plain mean of the values at positions
`max(0, i-6) .. i` of the athlete's rows, the chronic field the mean over
`max(0, i-27) .. i`; both are defined (`some`) whenever position `i`
exists, even with fewer rows than the window. -/
theorem C5_theorem (w : List LoadRecord) (p : List PositionRecord) (a : String) (i : Nat)
    (hi : i < ((merged_bounded w p).filter (fun r => r.player == a)).length) :
    ∃ hs ds : List ℚ,
      ((merged_bounded w p).filter (fun r => r.player == a)).map
          (fun r => r.get "High Speed Running") = hs.map some ∧
      ((merged_bounded w p).filter (fun r => r.player == a)).map
          (fun r => r.get "DSL") = ds.map some ∧
      ((merged_windowed w p).filter (fun x => x.base.player == a)).getD i default
        = { base := ((merged_bounded w p).filter (fun r => r.player == a)).getD i default
            acuteHSR := some (meanQ (sliceW hs 7 i))
            chronicHSR := some (meanQ (sliceW hs 28 i))
            acwrHSR := fdiv (some (meanQ (sliceW hs 7 i))) (some (meanQ (sliceW hs 28 i)))
            acuteDSL := some (meanQ (sliceW ds 7 i))
            chronicDSL := some (meanQ (sliceW ds 28 i))
            acwrDSL := fdiv (some (meanQ (sliceW ds 7 i))) (some (meanQ (sliceW ds 28 i))) } := by
  have hall1 : ∀ v ∈ ((merged_bounded w p).filter (fun r => r.player == a)).map
      (fun r => r.get "High Speed Running"), v.isSome = true := by
    intro v hv
    rw [List.mem_map] at hv
    obtain ⟨r, hr, hrv⟩ := hv
    rw [← hrv]
    exact bounded_hsr_isSome r (List.mem_of_mem_filter hr)
  have hall2 : ∀ v ∈ ((merged_bounded w p).filter (fun r => r.player == a)).map
      (fun r => r.get "DSL"), v.isSome = true := by
    intro v hv
    rw [List.mem_map] at hv
    obtain ⟨r, hr, hrv⟩ := hv
    rw [← hrv]
    exact bounded_dsl_isSome r (List.mem_of_mem_filter hr)
  obtain ⟨hs, hhs⟩ := all_some_eq_map hall1
  obtain ⟨ds, hds⟩ := all_some_eq_map hall2
  have hlen1 : i < hs.length := by
    have h1 : (((merged_bounded w p).filter (fun r => r.player == a)).map
        (fun r => r.get "High Speed Running")).length = hs.length := by
      rw [hhs, List.length_map]
    rw [List.length_map] at h1
    omega
  have hlen2 : i < ds.length := by
    have h1 : (((merged_bounded w p).filter (fun r => r.player == a)).map
        (fun r => r.get "DSL")).length = ds.length := by
      rw [hds, List.length_map]
    rw [List.length_map] at h1
    omega
  refine ⟨hs, ds, hhs, hds, ?_⟩
  have hfw : (merged_windowed w p).filter (fun x => x.base.player == a)
      = windowGroup ((merged_bounded w p).filter (fun r => r.player == a)) := by
    unfold merged_windowed
    exact filter_addWindowed _ a
  rw [hfw, windowGroup_getD hi, hhs, hds,
    rollingMean_map_some (by norm_num) hlen1, rollingMean_map_some (by norm_num) hlen1,
    rollingMean_map_some (by norm_num) hlen2, rollingMean_map_some (by norm_num) hlen2]

/-- Witness for C5: the rolling-window characterisation instantiated at
the single-athlete example pipeline at position `0`. -/
theorem C5_witness :
    ∃ hs ds : List ℚ,
      ((merged_bounded wEx1 pEx5).filter (fun r => r.player == "A")).map
          (fun r => r.get "High Speed Running") = hs.map some ∧
      ((merged_bounded wEx1 pEx5).filter (fun r => r.player == "A")).map
          (fun r => r.get "DSL") = ds.map some ∧
      ((merged_windowed wEx1 pEx5).filter (fun x => x.base.player == "A")).getD 0 default
        = { base := ((merged_bounded wEx1 pEx5).filter (fun r => r.player == "A")).getD 0 default
            acuteHSR := some (meanQ (sliceW hs 7 0))
            chronicHSR := some (meanQ (sliceW hs 28 0))
            acwrHSR := fdiv (some (meanQ (sliceW hs 7 0))) (some (meanQ (sliceW hs 28 0)))
            acuteDSL := some (meanQ (sliceW ds 7 0))
            chronicDSL := some (meanQ (sliceW ds 28 0))
            acwrDSL := fdiv (some (meanQ (sliceW ds 7 0))) (some (meanQ (sliceW ds 28 0))) } :=
  C5_theorem wEx1 pEx5 "A" 0 (by rw [merged_bounded_ex]; decide)


